import Mathlib

/-!
Verification of the auto-phd pipeline orchestrator and its adaptive
paper-gathering loop, as a shallow embedding in Lean 4.

The first half of this file embeds the gathering loop of
`src/server/agents/paper-selector.ts` (`selectPapers`,
`shouldContinueGathering`) and the driving loop in the enhanced
orchestrator (`runPipeline`, step 3).  The external decision oracle
(an LLM call) and the resource fetch (PDF download + text extraction)
are modelled as function parameters; an `Option` result `none` models
a thrown error or a failed download.  JavaScript `Map` objects are
modelled as insertion-ordered association lists, and JavaScript string
operations (`toLowerCase`, `includes`, `slice`) are modelled
character-wise.

The second half embeds the stage-sequencing skeleton of
`src/server/orchestrator.ts` (`runPipeline`, `updateStatus`): status
records, the status-event stream, the shared run context and the
catch-block error handling.
-/

namespace AutoPhd

/-! ## JavaScript primitives -/

/-- Truthiness of an optional string field (`undefined` and `""` are falsy). -/
def strTruthy : Option String → Bool
  | none => false
  | some s => s != ""

/-- The expression `o || d` on an optional string, as used for
defaulting oracle-supplied fields (empty string is falsy). -/
def jsOr (o : Option String) (d : String) : String :=
  match o with
  | none => d
  | some s => if s == "" then d else s

/-- Mirrors `Map.prototype.has`. -/
def jsMapHas (m : List (String × String)) (k : String) : Bool :=
  m.any (fun kv => kv.1 == k)

/-- Mirrors `Map.prototype.set`: when the key is already present its
value is replaced in place (insertion order and key set unchanged);
otherwise the new pair is appended. -/
def jsMapSet (m : List (String × String)) (k v : String) : List (String × String) :=
  if m.any (fun kv => kv.1 == k) then
    m.map (fun kv => if kv.1 == k then (k, v) else kv)
  else m ++ [(k, v)]

/-- Mirrors `String.prototype.toLowerCase` (character-wise). -/
def jsToLower (s : String) : String := String.mk (s.data.map Char.toLower)

/-- Mirrors `String.prototype.slice(0, n)`. -/
def jsSlice (s : String) (n : Nat) : String := String.mk (s.data.take n)

/-- Mirrors `String.prototype.includes`. -/
def jsIncludes (s sub : String) : Bool :=
  s.data.tails.any (fun t => sub.data.isPrefixOf t)

/-- Mirrors `String.prototype.startsWith`. -/
def jsStartsWith (s p : String) : Bool :=
  p.data.isPrefixOf s.data

/-! ## Data model of the gathering loop (`types.ts`) -/

/-- A candidate paper (`PaperCandidate` in `types.ts`).  Fields that are
only interpolated into the oracle prompt (`abstract`, `url`, `venue`,
`relevanceScore`) are omitted; the embedded control flow reads only the
fields below. -/
structure PaperCandidate where
  title : String
  year : Int
  citationCount : Nat
  pdfUrl : Option String
deriving Repr, DecidableEq

/-- One validated entry of `papersToDownload`. -/
structure DownloadEntry where
  title : String
  pdfUrl : String
  reason : String
  priority : String
deriving Repr, DecidableEq

/-- One entry of `papersToSkip`. -/
structure SkipEntry where
  title : String
  reason : String
deriving Repr, DecidableEq

/-- `PaperSelectionDecision` in `types.ts`. -/
structure PaperSelectionDecision where
  papersToDownload : List DownloadEntry
  papersToSkip : List SkipEntry
  shouldSearchMore : Bool
  searchSuggestions : Option (List String)
  reasoning : String
deriving Repr, DecidableEq

/-- An entry of the raw (unvalidated) oracle output: every field the
oracle may omit is optional.  The oracle-supplied `pdfUrl` is carried
but never used (the code only trusts the candidate URL). -/
structure RawDownloadEntry where
  title : String
  pdfUrl : String
  reason : Option String
  priority : Option String
deriving Repr, DecidableEq

/-- Raw oracle output of `selectPapers` before validation and
default-filling. -/
structure RawDecision where
  papersToDownload : Option (List RawDownloadEntry)
  papersToSkip : Option (List SkipEntry)
  shouldSearchMore : Option Bool
  searchSuggestions : Option (List String)
  reasoning : Option String
deriving Repr, DecidableEq

/-- `PaperContext` in `types.ts`.  `downloadedContent` is a JS `Map`
from canonical title to extracted text, modelled as an
insertion-ordered association list. -/
structure PaperContext where
  availablePapers : List PaperCandidate
  downloadedContent : List (String × String)
  selectionHistory : List PaperSelectionDecision
  totalDownloaded : Nat
  maxPapers : Nat
deriving Repr, DecidableEq

/-! ## `selectPapers` (`paper-selector.ts`, lines 21-208) -/

/-- The candidate filter at the top of `selectPapers`: available papers
that have a (truthy) PDF URL and whose title is not yet a key of
`downloadedContent`. -/
def candidatePapersOf (ctx : PaperContext) : List PaperCandidate :=
  ctx.availablePapers.filter
    (fun p => strTruthy p.pdfUrl && !(jsMapHas ctx.downloadedContent p.title))

/-- The fuzzy title match used to resolve an oracle-recommended title
back to a real candidate: either lowercased title contains the first 30
characters of the other lowercased title. -/
def fuzzyTitleMatch (candidateTitle aiTitle : String) : Bool :=
  jsIncludes (jsToLower candidateTitle) (jsSlice (jsToLower aiTitle) 30) ||
  jsIncludes (jsToLower aiTitle) (jsSlice (jsToLower candidateTitle) 30)

/-- Decides whether the fallback score of `a` is at least the fallback
score of `b`, where the score of a paper `p` is
`(p.year - 2020) * 2 + log10(p.citationCount + 1)`.
Writing `e = 2 * (a.year - b.year)`, the comparison
`2*ya + log10(ca+1) >= 2*yb + log10(cb+1)` is equivalent to the exact
integer inequality `(ca+1) * 10^max(e,0) >= (cb+1) * 10^max(-e,0)`;
theorem `scoreGe_iff` below proves this agreement with the real-valued
score formula from the source. -/
def scoreGe (a b : PaperCandidate) : Bool :=
  let e : Int := 2 * (a.year - b.year)
  decide ((b.citationCount + 1) * 10 ^ (-e).toNat ≤ (a.citationCount + 1) * 10 ^ e.toNat)

/-- `selectPapers`.  The oracle parameter models `callGeminiJSON`: it
receives the filtered candidate list and the context (the data that the
prompt is built from) and returns the raw decision, or `none` when the
call throws.  The status-callback side effects are omitted. -/
def selectPapers (oracle : List PaperCandidate → PaperContext → Option RawDecision)
    (ctx : PaperContext) : PaperSelectionDecision :=
  let candidatePapers := candidatePapersOf ctx
  if candidatePapers.isEmpty then
    { papersToDownload := []
      papersToSkip := []
      shouldSearchMore := ctx.totalDownloaded < 2
      searchSuggestions :=
        if ctx.totalDownloaded < 2 then
          some ["Try searching for the professor name with different keywords"]
        else none
      reasoning := "No more papers with open access PDFs available to download." }
  else
    let remainingSlots : Int := (ctx.maxPapers : Int) - (ctx.totalDownloaded : Int)
    if remainingSlots ≤ 0 then
      { papersToDownload := []
        papersToSkip := candidatePapers.map
          (fun p => { title := p.title, reason := "Maximum paper limit reached" })
        shouldSearchMore := false
        searchSuggestions := none
        reasoning := "Already downloaded maximum papers." }
    else
      match oracle candidatePapers ctx with
      | some raw =>
        let aiDownload := raw.papersToDownload.getD []
        let validated := aiDownload.filterMap (fun aiPaper =>
          match candidatePapers.find? (fun c => fuzzyTitleMatch c.title aiPaper.title) with
          | some c =>
            if strTruthy c.pdfUrl && jsStartsWith (c.pdfUrl.getD "") "http" then
              some { title := c.title
                     pdfUrl := c.pdfUrl.getD ""
                     reason := jsOr aiPaper.reason "Selected by AI"
                     priority := jsOr aiPaper.priority "medium" : DownloadEntry }
            else none
          | none => none)
        { papersToDownload := validated.take remainingSlots.toNat
          papersToSkip := raw.papersToSkip.getD []
          shouldSearchMore := raw.shouldSearchMore.getD false
          searchSuggestions := raw.searchSuggestions
          reasoning := jsOr raw.reasoning "Paper selection completed." }
      | none =>
        let sorted := candidatePapers.mergeSort scoreGe
        { papersToDownload := (sorted.take remainingSlots.toNat).map (fun p =>
            { title := p.title
              pdfUrl := p.pdfUrl.getD ""
              reason := "Fallback selection based on recency and citations"
              priority := "medium" })
          papersToSkip := []
          shouldSearchMore := false
          searchSuggestions := none
          reasoning := "Fallback selection due to AI error." }

/-! ## `shouldContinueGathering` (`paper-selector.ts`, lines 213-293) -/

structure ContinueDecision where
  shouldContinue : Bool
  reason : String
deriving Repr, DecidableEq

/-- `shouldContinueGathering`.  The oracle parameter models the quick
LLM call: outer `none` = the call throws; inner `Option Bool` = the
`shouldContinue` field, possibly missing (`?? false` in the source);
the oracle-supplied reason string is abstracted to a constant.  The
second component of the result records whether the oracle was invoked
at all. -/
def shouldContinueGathering (oracle : PaperContext → Option (Option Bool))
    (ctx : PaperContext) (currentIteration maxIterations : Nat) :
    ContinueDecision × Bool :=
  if currentIteration ≥ maxIterations then
    ({ shouldContinue := false
       reason := "Reached maximum iteration limit (" ++ toString maxIterations ++ ")" }, false)
  else if ctx.totalDownloaded ≥ ctx.maxPapers then
    ({ shouldContinue := false
       reason := "Downloaded maximum papers (" ++ toString ctx.maxPapers ++ ")" }, false)
  else if ctx.totalDownloaded < 2 then
    ({ shouldContinue := true
       reason := "Need at least 2 papers for comprehensive analysis" }, false)
  else
    match oracle ctx with
    | some r => ({ shouldContinue := r.getD false, reason := "Assessment complete" }, true)
    | none =>
      ({ shouldContinue := ctx.totalDownloaded < 2
         reason := "Default decision based on paper count" }, true)

/-! ## The download loop inside the gathering iteration
(`part_005`, `runPipeline`, lines 160-194) -/

/-- One fetch attempt for a selected paper: `downloadOpenAccessPdf`
followed by `parsePDFBuffer` is modelled by the `fetch` parameter
(`none` = the download returned nothing, extraction failed, or an
exception was thrown).  When the extracted text is longer than 100
characters, its first 5000 characters are stored under the entry title
and the download counter is incremented.  (The mirror copy of the text
into the professor profile is not modelled; nothing below reads it.) -/
def attemptFetch (fetch : String → Option String) (ctx : PaperContext)
    (entry : DownloadEntry) : PaperContext :=
  match fetch entry.pdfUrl with
  | none => ctx
  | some text =>
    if text.length > 100 then
      { ctx with
        downloadedContent := jsMapSet ctx.downloadedContent entry.title (jsSlice text 5000)
        totalDownloaded := ctx.totalDownloaded + 1 }
    else ctx

/-- The `for` loop over `decision.papersToDownload`: before each
attempt the capacity guard `totalDownloaded >= maxPapers` breaks out of
the loop. -/
def downloadPapers (fetch : String → Option String) :
    List DownloadEntry → PaperContext → PaperContext
  | [], ctx => ctx
  | entry :: rest, ctx =>
    if ctx.totalDownloaded ≥ ctx.maxPapers then ctx
    else downloadPapers fetch rest (attemptFetch fetch ctx entry)

/-- The same loop, returning the state after every fetch attempt that
is actually performed. -/
def downloadTrace (fetch : String → Option String) :
    List DownloadEntry → PaperContext → List PaperContext
  | [], _ => []
  | entry :: rest, ctx =>
    if ctx.totalDownloaded ≥ ctx.maxPapers then []
    else
      attemptFetch fetch ctx entry ::
        downloadTrace fetch rest (attemptFetch fetch ctx entry)

/-! ## The gathering loop (`part_005`, `runPipeline`, lines 141-218) -/

/-- The body of `while (iteration < maxIterations)`, by recursion on
the remaining fuel `maxIterations - iteration`.  Returns the final
context together with the final value of `iteration` (the number of
iterations executed). -/
def gatherGo (selOracle : List PaperCandidate → PaperContext → Option RawDecision)
    (contOracle : PaperContext → Option (Option Bool))
    (fetch : String → Option String) (maxIterations : Nat) :
    Nat → Nat → PaperContext → PaperContext × Nat
  | 0, iteration, ctx => (ctx, iteration)
  | remaining + 1, iteration, ctx =>
    let iteration' := iteration + 1
    let decision := selectPapers selOracle ctx
    let ctx₁ := { ctx with selectionHistory := ctx.selectionHistory ++ [decision] }
    let ctx₂ := downloadPapers fetch decision.papersToDownload ctx₁
    if !decision.shouldSearchMore then (ctx₂, iteration')
    else
      let cont := shouldContinueGathering contOracle ctx₂ iteration' maxIterations
      if !(cont.1.shouldContinue) then (ctx₂, iteration')
      else gatherGo selOracle contOracle fetch maxIterations remaining iteration' ctx₂

/-- The complete paper-selection loop of step 3. -/
def gather (selOracle : List PaperCandidate → PaperContext → Option RawDecision)
    (contOracle : PaperContext → Option (Option Bool))
    (fetch : String → Option String) (maxIterations : Nat)
    (ctx : PaperContext) : PaperContext × Nat :=
  gatherGo selOracle contOracle fetch maxIterations maxIterations 0 ctx

/-! ## Basic facts about a single fetch attempt and the download loop -/

theorem attemptFetch_maxPapers (fetch : String → Option String) (ctx : PaperContext)
    (e : DownloadEntry) : (attemptFetch fetch ctx e).maxPapers = ctx.maxPapers := by
  unfold attemptFetch
  cases fetch e.pdfUrl with
  | none => rfl
  | some t =>
    dsimp only
    split <;> rfl

theorem attemptFetch_totalDownloaded_le (fetch : String → Option String) (ctx : PaperContext)
    (e : DownloadEntry) :
    (attemptFetch fetch ctx e).totalDownloaded ≤ ctx.totalDownloaded + 1 := by
  unfold attemptFetch
  cases fetch e.pdfUrl with
  | none => exact Nat.le_succ _
  | some t =>
    dsimp only
    split
    · exact Nat.le.refl
    · exact Nat.le_succ _

theorem attemptFetch_totalDownloaded_ge (fetch : String → Option String) (ctx : PaperContext)
    (e : DownloadEntry) :
    ctx.totalDownloaded ≤ (attemptFetch fetch ctx e).totalDownloaded := by
  unfold attemptFetch
  cases fetch e.pdfUrl with
  | none => exact Nat.le.refl
  | some t =>
    dsimp only
    split
    · exact Nat.le_succ _
    · exact Nat.le.refl

theorem downloadPapers_totalDownloaded_ge (fetch : String → Option String)
    (papers : List DownloadEntry) (ctx : PaperContext) :
    ctx.totalDownloaded ≤ (downloadPapers fetch papers ctx).totalDownloaded := by
  induction papers generalizing ctx with
  | nil => exact Nat.le.refl
  | cons e rest ih =>
    rw [downloadPapers]
    split
    · exact Nat.le.refl
    · exact Nat.le_trans (attemptFetch_totalDownloaded_ge fetch ctx e) (ih _)

/-- If some entry in the list fetches successfully and capacity is not
yet reached, the download loop ends with a non-empty pool. -/
theorem downloadPapers_pos (fetch : String → Option String)
    (papers : List DownloadEntry) (ctx : PaperContext)
    (hcap : ctx.totalDownloaded < ctx.maxPapers)
    (hex : ∃ e ∈ papers, ∃ t, fetch e.pdfUrl = some t ∧ 100 < t.length) :
    0 < (downloadPapers fetch papers ctx).totalDownloaded := by
  induction papers generalizing ctx with
  | nil => simp at hex
  | cons e rest ih =>
    rw [downloadPapers]
    split
    · omega
    · rcases hex with ⟨e', he', t, ht, hlen⟩
      rw [List.mem_cons] at he'
      rcases he' with rfl | he'
      · have : 0 < (attemptFetch fetch ctx e').totalDownloaded := by
          unfold attemptFetch
          rw [ht]
          dsimp only
          rw [if_pos hlen]
          exact Nat.succ_pos _
        exact Nat.lt_of_lt_of_le this (downloadPapers_totalDownloaded_ge fetch rest _)
      · by_cases hband : (attemptFetch fetch ctx e).totalDownloaded < (attemptFetch fetch ctx e).maxPapers
        · exact ih _ hband ⟨e', he', t, ht, hlen⟩
        · have hm := attemptFetch_maxPapers fetch ctx e
          have hge := attemptFetch_totalDownloaded_ge fetch ctx e
          have : 0 < (attemptFetch fetch ctx e).totalDownloaded := by omega
          exact Nat.lt_of_lt_of_le this (downloadPapers_totalDownloaded_ge fetch rest _)

/-- The trace is the same loop: the final state of `downloadPapers` is
the last post-attempt state (or the initial state when no attempt is
performed). -/
theorem downloadPapers_eq_trace_last (fetch : String → Option String)
    (papers : List DownloadEntry) (ctx : PaperContext) :
    downloadPapers fetch papers ctx = (downloadTrace fetch papers ctx).getLastD ctx := by
  induction papers generalizing ctx with
  | nil => rfl
  | cons e rest ih =>
    rw [downloadPapers, downloadTrace]
    split
    · rfl
    · rw [List.getLastD_cons]
      exact ih _

/-! ## C1: capacity is never exceeded by a fetch attempt -/

/-- C1: for every state of the paper-gathering loop, after every fetch
attempt performed by the download loop the count of successfully
downloaded papers is at most the configured capacity `maxPapers`, even
when the decision recommends more papers than the remaining slots (the
entry list is arbitrary and in particular may be longer than
`maxPapers - totalDownloaded`). -/
theorem downloaded_le_capacity_after_attempt
    (fetch : String → Option String) (papers : List DownloadEntry)
    (ctx q : PaperContext) (hq : q ∈ downloadTrace fetch papers ctx) :
    q.totalDownloaded ≤ q.maxPapers := by
  induction papers generalizing ctx with
  | nil => simp [downloadTrace] at hq
  | cons e rest ih =>
    rw [downloadTrace] at hq
    split at hq
    · simp at hq
    · rename_i h
      rw [List.mem_cons] at hq
      rcases hq with rfl | hq
      · have h1 := attemptFetch_totalDownloaded_le fetch ctx e
        have h2 := attemptFetch_maxPapers fetch ctx e
        omega
      · exact ih _ hq

def longText : String := String.mk (List.replicate 101 'x')

/-- A fetch that always succeeds with a text of more than 100 characters. -/
def alwaysFetch : String → Option String := fun _ => some longText

def w1ctx : PaperContext :=
  { availablePapers := [], downloadedContent := [], selectionHistory := [],
    totalDownloaded := 0, maxPapers := 5 }

def w1entry : DownloadEntry :=
  { title := "a", pdfUrl := "http://a", reason := "r", priority := "medium" }

/-- Witness for C1 at a concrete post-attempt state. -/
theorem downloaded_le_capacity_after_attempt_witness :
    attemptFetch alwaysFetch w1ctx w1entry ∈ downloadTrace alwaysFetch [w1entry] w1ctx ∧
    (attemptFetch alwaysFetch w1ctx w1entry).totalDownloaded ≤
      (attemptFetch alwaysFetch w1ctx w1entry).maxPapers :=
  ⟨by decide,
   downloaded_le_capacity_after_attempt alwaysFetch [w1entry] w1ctx _ (by decide)⟩

/-! ## C2: the capacity scenario -/

/-- The ten seed candidates of the capacity scenario, each with an open
access PDF URL and a successful fetch. -/
def scenarioSeeds : List PaperCandidate :=
  ["a", "b", "c", "d", "e", "f", "g", "h", "i", "j"].map
    (fun t => { title := t, year := 2023, citationCount := 0, pdfUrl := some ("http://" ++ t) })

def scenarioCtx : PaperContext :=
  { availablePapers := scenarioSeeds, downloadedContent := [], selectionHistory := [],
    totalDownloaded := 0, maxPapers := 5 }

/-- A decision oracle that on every call recommends exactly the first
two still-available candidates (all valid) and signals continue. -/
def scenarioSelOracle : List PaperCandidate → PaperContext → Option RawDecision :=
  fun cands _ => some
    { papersToDownload := some ((cands.take 2).map (fun c =>
        { title := c.title, pdfUrl := c.pdfUrl.getD ""
          reason := some "relevant", priority := some "high" }))
      papersToSkip := some []
      shouldSearchMore := some true
      searchSuggestions := none
      reasoning := some "continue gathering" }

/-- The secondary evaluation oracle of the scenario also always signals
continue, so only the hard limits can stop the loop. -/
def scenarioContOracle : PaperContext → Option (Option Bool) := fun _ => some (some true)

/-- C2: starting from zero downloads with 10 fetchable seed candidates,
capacity 5, maxIterations 5 and an oracle that always recommends
exactly 2 valid candidates and signals continue, the loop downloads
exactly 5 papers and exits during iteration 3, before completing all 5
iterations. -/
theorem scenario_hits_capacity_and_stops_early :
    (gather scenarioSelOracle scenarioContOracle alwaysFetch 5 scenarioCtx).1.totalDownloaded = 5 ∧
    (gather scenarioSelOracle scenarioContOracle alwaysFetch 5 scenarioCtx).2 = 3 ∧
    (gather scenarioSelOracle scenarioContOracle alwaysFetch 5 scenarioCtx).2 < 5 := by
  decide

/-! ## C3: re-fetching an already-present title -/

def dupPool : PaperContext :=
  { availablePapers := [], downloadedContent := [("a", "old text")], selectionHistory := [],
    totalDownloaded := 1, maxPapers := 5 }

def dupEntry : DownloadEntry :=
  { title := "a", pdfUrl := "http://a", reason := "r", priority := "medium" }

/-- C3 counterexample: a successful fetch attempt for a paper whose
title is already a key of the downloaded map DOES increase
`totalDownloaded` — the download loop has no dedup guard; only the map
write itself is idempotent. -/
theorem refetch_increments_counter_cex :
    jsMapHas dupPool.downloadedContent dupEntry.title = true ∧
    (attemptFetch alwaysFetch dupPool dupEntry).totalDownloaded =
      dupPool.totalDownloaded + 1 := by
  decide

theorem map_fst_update (m : List (String × String)) (k v : String) :
    (m.map (fun kv => if kv.1 == k then (k, v) else kv)).map Prod.fst = m.map Prod.fst := by
  induction m with
  | nil => rfl
  | cons kv rest ih =>
    simp only [List.map_cons, ih]
    by_cases hk : (kv.1 == k) = true
    · simp [hk, (eq_of_beq hk).symm]
    · simp [hk]

theorem map_fst_jsMapSet_of_has (m : List (String × String)) (k v : String)
    (h : jsMapHas m k = true) :
    (jsMapSet m k v).map Prod.fst = m.map Prod.fst := by
  unfold jsMapHas at h
  unfold jsMapSet
  rw [if_pos h]
  exact map_fst_update m k v

/-- C3 amended: a fetch attempt for a paper whose canonical title is
already a key of the downloaded map never adds a second entry for that
title (the key list of the map is unchanged, the existing value is
overwritten in place), but `totalDownloaded` is still incremented
whenever the fetch succeeds with text longer than 100 characters. -/
theorem refetch_no_second_entry
    (fetch : String → Option String) (ctx : PaperContext) (e : DownloadEntry)
    (h : jsMapHas ctx.downloadedContent e.title = true) :
    (attemptFetch fetch ctx e).downloadedContent.map Prod.fst =
      ctx.downloadedContent.map Prod.fst ∧
    (attemptFetch fetch ctx e).totalDownloaded =
      ctx.totalDownloaded +
        (match fetch e.pdfUrl with
         | some t => if 100 < t.length then 1 else 0
         | none => 0) := by
  unfold attemptFetch
  cases fetch e.pdfUrl with
  | none => exact ⟨rfl, rfl⟩
  | some t =>
    dsimp only
    by_cases hlen : 100 < t.length
    · rw [if_pos hlen, if_pos hlen]
      exact ⟨map_fst_jsMapSet_of_has _ _ _ h, rfl⟩
    · rw [if_neg hlen, if_neg hlen]
      exact ⟨rfl, rfl⟩

/-- Witness for the amended C3 at a concrete pool. -/
theorem refetch_no_second_entry_witness :
    jsMapHas dupPool.downloadedContent dupEntry.title = true ∧
    (attemptFetch alwaysFetch dupPool dupEntry).downloadedContent.map Prod.fst =
      dupPool.downloadedContent.map Prod.fst ∧
    (attemptFetch alwaysFetch dupPool dupEntry).totalDownloaded =
      dupPool.totalDownloaded +
        (match alwaysFetch dupEntry.pdfUrl with
         | some t => if 100 < t.length then 1 else 0
         | none => 0) :=
  ⟨by decide, refetch_no_second_entry alwaysFetch dupPool dupEntry (by decide)⟩

/-! ## C6: behaviour when no unfetched candidates remain -/

def noCandCtx : PaperContext :=
  { availablePapers := [], downloadedContent := [], selectionHistory := [],
    totalDownloaded := 0, maxPapers := 5 }

/-- C6 counterexample: with no unfetched candidates and fewer than two
downloads, the loop does NOT terminate at that iteration: starting at
iteration 1 with an empty candidate set it still executes a second
iteration (idling until the iteration limit), because the early-return
decision sets `shouldSearchMore` to `totalDownloaded < 2` and the
continue check answers `true` below two downloads. -/
theorem no_candidates_loop_continues_cex :
    candidatePapersOf noCandCtx = [] ∧
    (gather (fun _ _ => none) (fun _ => none) (fun _ => none) 2 noCandCtx).2 = 2 := by
  decide

/-- C6 amended: if no unfetched candidates remain and at least two
papers have already been downloaded, the loop terminates at that very
iteration with the pool unchanged; with fewer than two downloads it
continues instead. -/
theorem no_candidates_terminates_when_two
    (selOracle : List PaperCandidate → PaperContext → Option RawDecision)
    (contOracle : PaperContext → Option (Option Bool))
    (fetch : String → Option String)
    (maxIterations remaining iteration : Nat) (ctx : PaperContext)
    (hc : candidatePapersOf ctx = []) (h2 : 2 ≤ ctx.totalDownloaded) :
    (gatherGo selOracle contOracle fetch maxIterations (remaining + 1) iteration ctx).2 =
      iteration + 1 ∧
    (gatherGo selOracle contOracle fetch maxIterations (remaining + 1) iteration
      ctx).1.downloadedContent = ctx.downloadedContent ∧
    (gatherGo selOracle contOracle fetch maxIterations (remaining + 1) iteration
      ctx).1.totalDownloaded = ctx.totalDownloaded := by
  have hdec : selectPapers selOracle ctx =
      { papersToDownload := []
        papersToSkip := []
        shouldSearchMore := ctx.totalDownloaded < 2
        searchSuggestions :=
          if ctx.totalDownloaded < 2 then
            some ["Try searching for the professor name with different keywords"]
          else none
        reasoning := "No more papers with open access PDFs available to download." } := by
    unfold selectPapers
    rw [hc]
    rfl
  have hlt : decide (ctx.totalDownloaded < 2) = false := decide_eq_false (by omega)
  rw [gatherGo]
  simp [hdec, hlt, downloadPapers]

def w6ctx : PaperContext :=
  { availablePapers := [], downloadedContent := [("a", "ta"), ("b", "tb")],
    selectionHistory := [], totalDownloaded := 2, maxPapers := 5 }

/-- Witness for the amended C6 at a concrete context. -/
theorem no_candidates_terminates_when_two_witness :
    (gatherGo (fun _ _ => none) (fun _ => none) (fun _ => none) 5 (4 + 1) 0 w6ctx).2 = 0 + 1 ∧
    (gatherGo (fun _ _ => none) (fun _ => none) (fun _ => none) 5 (4 + 1) 0
      w6ctx).1.downloadedContent = w6ctx.downloadedContent ∧
    (gatherGo (fun _ _ => none) (fun _ => none) (fun _ => none) 5 (4 + 1) 0
      w6ctx).1.totalDownloaded = w6ctx.totalDownloaded :=
  no_candidates_terminates_when_two (fun _ _ => none) (fun _ => none) (fun _ => none)
    5 4 0 w6ctx (by decide) (by decide)

/-! ## C10: hard limits bypass the oracle in shouldContinueGathering -/

/-- C10: whenever `currentIteration >= maxIterations` or
`totalDownloaded >= maxPapers`, `shouldContinueGathering` answers
`false` without invoking the decision oracle; and within those limits
with fewer than two downloads it answers `true`, again without
invoking the oracle — so the oracle can never override the hard
iteration and capacity limits. -/
theorem hard_limits_bypass_oracle
    (oracle : PaperContext → Option (Option Bool)) (ctx : PaperContext)
    (currentIteration maxIterations : Nat) :
    (currentIteration ≥ maxIterations ∨ ctx.totalDownloaded ≥ ctx.maxPapers →
      (shouldContinueGathering oracle ctx currentIteration maxIterations).1.shouldContinue
          = false ∧
      (shouldContinueGathering oracle ctx currentIteration maxIterations).2 = false) ∧
    (currentIteration < maxIterations → ctx.totalDownloaded < ctx.maxPapers →
      ctx.totalDownloaded < 2 →
      (shouldContinueGathering oracle ctx currentIteration maxIterations).1.shouldContinue
          = true ∧
      (shouldContinueGathering oracle ctx currentIteration maxIterations).2 = false) := by
  unfold shouldContinueGathering
  constructor
  · intro h
    by_cases h1 : currentIteration ≥ maxIterations
    · rw [if_pos h1]
      exact ⟨rfl, rfl⟩
    · have h2 : ctx.totalDownloaded ≥ ctx.maxPapers := by omega
      rw [if_neg h1, if_pos h2]
      exact ⟨rfl, rfl⟩
  · intro h1 h2 h3
    rw [if_neg (by omega), if_neg (by omega), if_pos h3]
    exact ⟨rfl, rfl⟩

def w10ctx : PaperContext :=
  { availablePapers := [], downloadedContent := [], selectionHistory := [],
    totalDownloaded := 0, maxPapers := 5 }

/-- Witness for C10: at iteration 3 of 2 the answer is a hard `false`
with no oracle call, for an oracle that would have said continue. -/
theorem hard_limits_bypass_oracle_witness :
    (shouldContinueGathering (fun _ => some (some true)) w10ctx 3 2).1.shouldContinue = false ∧
    (shouldContinueGathering (fun _ => some (some true)) w10ctx 3 2).2 = false :=
  (hard_limits_bypass_oracle (fun _ => some (some true)) w10ctx 3 2).1 (Or.inl (by decide))

/-! ## C8: oracle recommendations with no matching candidate -/

def c8raw : RawDecision :=
  { papersToDownload := some
      [{ title := "zzz", pdfUrl := "http://fabricated", reason := none, priority := none }]
    papersToSkip := some []
    shouldSearchMore := some false
    searchSuggestions := none
    reasoning := some "pick zzz" }

def c8oracle : List PaperCandidate → PaperContext → Option RawDecision :=
  fun _ _ => some c8raw

def c8ctx : PaperContext :=
  { availablePapers :=
      [{ title := "real paper", year := 2023, citationCount := 1, pdfUrl := some "http://r" }]
    downloadedContent := [], selectionHistory := [], totalDownloaded := 0, maxPapers := 5 }

/-- C8 counterexample: a recommendation whose title matches no real
candidate contributes zero fetches, but it is NOT recorded in the
decision's papersToSkip list — the returned skip list is exactly what
the oracle itself supplied (here empty); the dropped title appears
nowhere in the result. -/
theorem unmatched_not_in_skip_cex :
    (selectPapers c8oracle c8ctx).papersToDownload = [] ∧
    (selectPapers c8oracle c8ctx).papersToSkip = [] := by
  decide

/-- C8 amended: an oracle recommendation that the normalized-title
comparison cannot match to a real candidate contributes zero fetches
and is dropped without retry or substitution — every entry of the
returned papersToDownload resolves by fuzzy title match to a real
candidate and carries that candidate's title and URL — and the
returned papersToSkip is exactly the validated skip list the oracle
itself supplied (the unmatched recommendation is only logged, not
recorded there); no error is raised. -/
theorem unmatched_dropped_silently
    (oracle : List PaperCandidate → PaperContext → Option RawDecision)
    (ctx : PaperContext) (raw : RawDecision)
    (hnc : (candidatePapersOf ctx).isEmpty = false)
    (hslots : ctx.totalDownloaded < ctx.maxPapers)
    (horacle : oracle (candidatePapersOf ctx) ctx = some raw) :
    (selectPapers oracle ctx).papersToSkip = raw.papersToSkip.getD [] ∧
    ∀ e ∈ (selectPapers oracle ctx).papersToDownload,
      ∃ c ∈ candidatePapersOf ctx,
        e.title = c.title ∧ e.pdfUrl = c.pdfUrl.getD "" ∧
        ∃ aiPaper ∈ raw.papersToDownload.getD [],
          fuzzyTitleMatch c.title aiPaper.title = true := by
  have hsel : selectPapers oracle ctx =
      { papersToDownload :=
          ((raw.papersToDownload.getD []).filterMap (fun aiPaper =>
            match (candidatePapersOf ctx).find?
                (fun c => fuzzyTitleMatch c.title aiPaper.title) with
            | some c =>
              if strTruthy c.pdfUrl && jsStartsWith (c.pdfUrl.getD "") "http" then
                some { title := c.title
                       pdfUrl := c.pdfUrl.getD ""
                       reason := jsOr aiPaper.reason "Selected by AI"
                       priority := jsOr aiPaper.priority "medium" : DownloadEntry }
              else none
            | none => none)).take
            ((ctx.maxPapers : Int) - (ctx.totalDownloaded : Int)).toNat
        papersToSkip := raw.papersToSkip.getD []
        shouldSearchMore := raw.shouldSearchMore.getD false
        searchSuggestions := raw.searchSuggestions
        reasoning := jsOr raw.reasoning "Paper selection completed." } := by
    unfold selectPapers
    simp only [hnc, Bool.false_eq_true, if_false, horacle]
    rw [if_neg (by omega : ¬ ((ctx.maxPapers : Int) - (ctx.totalDownloaded : Int) ≤ 0))]
  rw [hsel]
  refine ⟨rfl, ?_⟩
  intro e he
  have he' := List.mem_of_mem_take he
  rw [List.mem_filterMap] at he'
  rcases he' with ⟨aiPaper, hai, hf⟩
  cases hfind : (candidatePapersOf ctx).find?
      (fun c => fuzzyTitleMatch c.title aiPaper.title) with
  | none => rw [hfind] at hf; exact absurd hf (by simp)
  | some c =>
    rw [hfind] at hf
    dsimp only at hf
    have hc := List.mem_of_find?_eq_some hfind
    have hp := List.find?_some hfind
    by_cases hok : (strTruthy c.pdfUrl && jsStartsWith (c.pdfUrl.getD "") "http") = true
    · rw [if_pos hok] at hf
      cases hf
      exact ⟨c, hc, rfl, rfl, aiPaper, hai, hp⟩
    · rw [if_neg hok] at hf
      exact absurd hf (by simp)

/-- Witness for the amended C8 at the concrete unmatched-title input. -/
theorem unmatched_dropped_silently_witness :
    (selectPapers c8oracle c8ctx).papersToSkip = c8raw.papersToSkip.getD [] ∧
    ∀ e ∈ (selectPapers c8oracle c8ctx).papersToDownload,
      ∃ c ∈ candidatePapersOf c8ctx,
        e.title = c.title ∧ e.pdfUrl = c.pdfUrl.getD "" ∧
        ∃ aiPaper ∈ c8raw.papersToDownload.getD [],
          fuzzyTitleMatch c.title aiPaper.title = true :=
  unmatched_dropped_silently c8oracle c8ctx c8raw (by decide) (by decide) (by decide)


/-! ## C4: the deterministic fallback score -/

/-- The fallback score, read over the reals. -/
noncomputable def scoreReal (p : PaperCandidate) : ℝ :=
  ((p.year : ℝ) - 2020) * 2 + Real.logb 10 ((p.citationCount : ℝ) + 1)

theorem scoreGe_iff (a b : PaperCandidate) :
    scoreGe a b = true ↔ scoreReal b ≤ scoreReal a := by
  have hca : (0:ℝ) < (a.citationCount : ℝ) + 1 := by positivity
  have hcb : (0:ℝ) < (b.citationCount : ℝ) + 1 := by positivity
  have hlog : ∀ (y : Int) (c : ℝ), 0 < c →
      Real.logb 10 (c * (10:ℝ) ^ (2 * y)) = Real.logb 10 c + 2 * (y:ℝ) := by
    intro y c hc
    rw [Real.logb_mul (ne_of_gt hc) (ne_of_gt (zpow_pos (by norm_num) _))]
    rw [← Real.rpow_intCast 10 (2 * y), Real.logb_rpow (by norm_num) (by norm_num)]
    push_cast
    ring
  have hnat : scoreGe a b = true ↔
      ((b.citationCount:ℝ) + 1) * (10:ℝ) ^ (2 * b.year) ≤
        ((a.citationCount:ℝ) + 1) * (10:ℝ) ^ (2 * a.year) := by
    unfold scoreGe
    rw [decide_eq_true_iff]
    have huv : (((2 * (a.year - b.year)).toNat : Int)) - (((-(2 * (a.year - b.year))).toNat : Int))
        = 2 * (a.year - b.year) := by omega
    constructor
    · intro h
      have h' : ((b.citationCount:ℝ) + 1) * (10:ℝ) ^ (((-(2 * (a.year - b.year))).toNat : Int)) ≤
          ((a.citationCount:ℝ) + 1) * (10:ℝ) ^ (((2 * (a.year - b.year)).toNat : Int)) := by
        rw [zpow_natCast, zpow_natCast]
        exact_mod_cast h
      have hmul := (mul_le_mul_right (zpow_pos (show (0:ℝ) < 10 by norm_num)
          (2 * b.year - ((-(2 * (a.year - b.year))).toNat : Int)))).mpr h'
      rw [mul_assoc, mul_assoc, ← zpow_add₀ (show (10:ℝ) ≠ 0 by norm_num),
          ← zpow_add₀ (show (10:ℝ) ≠ 0 by norm_num)] at hmul
      have e1 : ((-(2 * (a.year - b.year))).toNat : Int) +
          (2 * b.year - ((-(2 * (a.year - b.year))).toNat : Int)) = 2 * b.year := by omega
      have e2 : ((2 * (a.year - b.year)).toNat : Int) +
          (2 * b.year - ((-(2 * (a.year - b.year))).toNat : Int)) = 2 * a.year := by omega
      rwa [e1, e2] at hmul
    · intro h
      have hmul := (mul_le_mul_right (zpow_pos (show (0:ℝ) < 10 by norm_num)
          (((-(2 * (a.year - b.year))).toNat : Int) - 2 * b.year))).mpr h
      rw [mul_assoc, mul_assoc, ← zpow_add₀ (show (10:ℝ) ≠ 0 by norm_num),
          ← zpow_add₀ (show (10:ℝ) ≠ 0 by norm_num)] at hmul
      have e1 : 2 * b.year + (((-(2 * (a.year - b.year))).toNat : Int) - 2 * b.year)
          = ((-(2 * (a.year - b.year))).toNat : Int) := by omega
      have e2 : 2 * a.year + (((-(2 * (a.year - b.year))).toNat : Int) - 2 * b.year)
          = ((2 * (a.year - b.year)).toNat : Int) := by omega
      rw [e1, e2, zpow_natCast, zpow_natCast] at hmul
      exact_mod_cast hmul
  rw [hnat, ← Real.logb_le_logb (show (1:ℝ) < 10 by norm_num)
        (mul_pos hcb (zpow_pos (by norm_num) _)) (mul_pos hca (zpow_pos (by norm_num) _)),
      hlog _ _ hcb, hlog _ _ hca]
  unfold scoreReal
  constructor <;> intro h <;> push_cast at h ⊢ <;> linarith

theorem scoreGe_trans (a b c : PaperCandidate) (hab : scoreGe a b = true)
    (hbc : scoreGe b c = true) : scoreGe a c = true :=
  (scoreGe_iff a c).mpr (le_trans ((scoreGe_iff b c).mp hbc) ((scoreGe_iff a b).mp hab))

theorem scoreGe_total (a b : PaperCandidate) : (scoreGe a b || scoreGe b a) = true := by
  rcases le_total (scoreReal b) (scoreReal a) with h | h
  · rw [(scoreGe_iff a b).mpr h]
    rfl
  · rw [(scoreGe_iff b a).mpr h, Bool.or_true]

/-- `remainingSlots` of `selectPapers`, clamped to a natural number as
used by `slice(0, remainingSlots)`. -/
def remainingSlotsOf (ctx : PaperContext) : Nat :=
  ((ctx.maxPapers : Int) - (ctx.totalDownloaded : Int)).toNat

/-- The download entry built by the fallback branch for a candidate. -/
def fallbackEntry (p : PaperCandidate) : DownloadEntry :=
  { title := p.title
    pdfUrl := p.pdfUrl.getD ""
    reason := "Fallback selection based on recency and citations"
    priority := "medium" }

theorem gatherGo_iterations_le
    (selOracle : List PaperCandidate → PaperContext → Option RawDecision)
    (contOracle : PaperContext → Option (Option Bool))
    (fetch : String → Option String) (maxIterations : Nat) :
    ∀ (remaining iteration : Nat) (ctx : PaperContext),
      (gatherGo selOracle contOracle fetch maxIterations remaining iteration ctx).2 ≤
        iteration + remaining := by
  intro remaining
  induction remaining with
  | zero => intro iteration ctx; exact Nat.le_refl _
  | succ n ih =>
    intro iteration ctx
    rw [gatherGo]
    dsimp only
    split
    · omega
    · split
      · omega
      · have := ih (iteration + 1) (downloadPapers fetch
          (selectPapers selOracle ctx).papersToDownload
          { ctx with selectionHistory :=
              ctx.selectionHistory ++ [selectPapers selOracle ctx] })
        omega

/-- The shape of `selectPapers` when the oracle call fails and the
fallback branch is taken. -/
theorem selectPapers_fallback (ctx : PaperContext)
    (hnc : (candidatePapersOf ctx).isEmpty = false)
    (hslots : ctx.totalDownloaded < ctx.maxPapers) :
    selectPapers (fun _ _ => none) ctx =
      { papersToDownload :=
          (((candidatePapersOf ctx).mergeSort scoreGe).take (remainingSlotsOf ctx)).map
            fallbackEntry
        papersToSkip := []
        shouldSearchMore := false
        searchSuggestions := none
        reasoning := "Fallback selection due to AI error." } := by
  unfold selectPapers
  simp only [hnc, Bool.false_eq_true, if_false]
  rw [if_neg (by omega : ¬ ((ctx.maxPapers : Int) - (ctx.totalDownloaded : Int) ≤ 0))]
  rfl

/-- C4: when the decision call fails, the fallback decision selects
exactly the top `remainingSlots` unfetched candidates ordered by the
deterministic score `(year - 2020) * 2 + log10(citationCount + 1)`
descending; and under consecutive decision failures the gatherer still
terminates within `maxIterations` iterations and ends with a non-empty
pool whenever at least one fallback-selected candidate is fetchable. -/
theorem fallback_top_score_and_termination
    (ctx : PaperContext) (fetch : String → Option String)
    (contOracle : PaperContext → Option (Option Bool)) (maxIterations : Nat) :
    (∃ sortedCands : List PaperCandidate,
      (candidatePapersOf ctx).Perm sortedCands ∧
      sortedCands.Pairwise (fun p q => scoreReal q ≤ scoreReal p) ∧
      (selectPapers (fun _ _ => none) ctx).papersToDownload =
        (sortedCands.take (remainingSlotsOf ctx)).map fallbackEntry) ∧
    (gather (fun _ _ => none) contOracle fetch maxIterations ctx).2 ≤ maxIterations ∧
    (1 ≤ maxIterations →
      (∃ e ∈ (selectPapers (fun _ _ => none) ctx).papersToDownload,
          ∃ t, fetch e.pdfUrl = some t ∧ 100 < t.length) →
      0 < (gather (fun _ _ => none) contOracle fetch maxIterations ctx).1.totalDownloaded) := by
  have hsorted : ((candidatePapersOf ctx).mergeSort scoreGe).Pairwise
      (fun p q => scoreReal q ≤ scoreReal p) := by
    have := @List.sorted_mergeSort PaperCandidate scoreGe
      (fun a b c hab hbc => scoreGe_trans a b c hab hbc)
      (fun a b => scoreGe_total a b) (candidatePapersOf ctx)
    exact this.imp (fun h => (scoreGe_iff _ _).mp h)
  refine ⟨?_, ?_, ?_⟩
  · by_cases hnc : (candidatePapersOf ctx).isEmpty
    · refine ⟨[], ?_, List.Pairwise.nil, ?_⟩
      · rw [List.isEmpty_iff.mp hnc]
      · rw [List.take_nil, List.map_nil]
        unfold selectPapers
        simp only [hnc, if_true]
    · by_cases hslots : ctx.totalDownloaded < ctx.maxPapers
      · refine ⟨(candidatePapersOf ctx).mergeSort scoreGe,
          (List.mergeSort_perm _ _).symm, hsorted, ?_⟩
        rw [selectPapers_fallback ctx (by simpa using hnc) hslots]
      · refine ⟨(candidatePapersOf ctx).mergeSort scoreGe,
          (List.mergeSort_perm _ _).symm, hsorted, ?_⟩
        have hz : remainingSlotsOf ctx = 0 := by
          unfold remainingSlotsOf
          omega
        rw [hz, List.take_zero, List.map_nil]
        unfold selectPapers
        simp only [Bool.not_eq_true] at hnc
        simp only [hnc, Bool.false_eq_true, if_false]
        rw [if_pos (by omega : (ctx.maxPapers : Int) - (ctx.totalDownloaded : Int) ≤ 0)]
  · unfold gather
    have := gatherGo_iterations_le (fun _ _ => none) contOracle fetch
      maxIterations maxIterations 0 ctx
    omega
  · intro hiter hex
    obtain ⟨rem, rfl⟩ : ∃ r, maxIterations = r + 1 := ⟨maxIterations - 1, by omega⟩
    by_cases hnc : (candidatePapersOf ctx).isEmpty
    · exfalso
      rcases hex with ⟨e, he, _⟩
      unfold selectPapers at he
      simp only [hnc, if_true] at he
      simp at he
    · by_cases hslots : ctx.totalDownloaded < ctx.maxPapers
      · have hsel := selectPapers_fallback ctx (by simpa using hnc) hslots
        rw [hsel] at hex
        dsimp only at hex
        unfold gather
        rw [gatherGo]
        dsimp only
        rw [hsel]
        dsimp only
        have hcond : (!false) = true := rfl
        rw [if_pos hcond]
        dsimp only
        exact downloadPapers_pos fetch _ _ hslots hex
      · exfalso
        rcases hex with ⟨e, he, _⟩
        unfold selectPapers at he
        simp only [Bool.not_eq_true] at hnc
        simp only [hnc, Bool.false_eq_true, if_false] at he
        rw [if_pos (by omega : (ctx.maxPapers : Int) - (ctx.totalDownloaded : Int) ≤ 0)] at he
        simp at he

def w4ctx : PaperContext :=
  { availablePapers :=
      [{ title := "a", year := 2023, citationCount := 0, pdfUrl := some "http://a" }]
    downloadedContent := [], selectionHistory := [], totalDownloaded := 0, maxPapers := 5 }

/-- Witness for C4 at a concrete context with one fetchable candidate
and a failing oracle. -/
theorem fallback_top_score_and_termination_witness :
    0 < (gather (fun _ _ => none) (fun _ => none) alwaysFetch 1 w4ctx).1.totalDownloaded :=
  (fallback_top_score_and_termination w4ctx alwaysFetch (fun _ => none) 1).2.2
    (by decide)
    ⟨fallbackEntry { title := "a", year := 2023, citationCount := 0, pdfUrl := some "http://a" },
      by
        rw [selectPapers_fallback w4ctx (by decide) (by decide)]
        have hc : candidatePapersOf w4ctx =
            [{ title := "a", year := 2023, citationCount := 0, pdfUrl := some "http://a" }] := by
          decide
        rw [hc, List.mergeSort_singleton]
        decide,
      longText, rfl, by decide⟩

/-! ## The stage-sequencing orchestrator (`orchestrator.ts`)

The embedding below follows `src/server/orchestrator.ts` (7 stages); the
enhanced 8-stage orchestrator shares the same skeleton (`updateStatus`,
the per-stage update pattern, and the catch block are identical).
Stage bodies are opaque: each one is represented by the progress notices
it emits and its outcome; artifacts are abstracted to natural numbers.
Wall-clock sampling (`Date.now()`) is modelled by a sequence
`times : Nat → Nat` of timestamps consumed one per sample; `times 0` is
the run-start sample. -/

/-- Lifecycle state of `AgentStatus.status`. -/
inductive StageLife
  | pending
  | running
  | complete
  | error
deriving Repr, DecidableEq

/-- `AgentStatus` in `types.ts`. -/
structure AgentStatusM where
  step : Nat
  name : String
  status : StageLife
  currentAction : String
  progress : Nat
  timeElapsed : Nat
  output : Option Nat
  error : Option String
deriving Repr, DecidableEq

/-- A `Partial AgentStatus` as passed to `updateStatus`: exactly the
fields that call sites ever set (never `step`, `name` or
`timeElapsed`). -/
structure StatusPatch where
  status : Option StageLife := none
  currentAction : Option String := none
  progress : Option Nat := none
  output : Option (Option Nat) := none
  error : Option (Option String) := none
deriving Repr

/-- The object-spread merge `{ ...current, ...update }`. -/
def applyPatch (a : AgentStatusM) (p : StatusPatch) : AgentStatusM :=
  { a with
    status := p.status.getD a.status
    currentAction := p.currentAction.getD a.currentAction
    progress := p.progress.getD a.progress
    output := p.output.getD a.output
    error := p.error.getD a.error }

/-- Mutable state of one `runPipeline` invocation: the per-step status
map, the stream of emitted status events (each `onStatus` call appends
one), and the index of the next clock sample. -/
structure RunState where
  statuses : Nat → AgentStatusM
  events : List AgentStatusM
  tick : Nat

/-- `Math.floor((Date.now() - startTime) / 1000)` where the `t`-th
clock sample is `times t` and `times 0` is the run-start timestamp
captured once. -/
def elapsedAt (times : Nat → Nat) (t : Nat) : Nat := (times t - times 0) / 1000

/-- `updateStatus`: merge the partial update into the current status,
stamp it with the elapsed time since run start, store it and emit it. -/
def updateStatusM (times : Nat → Nat) (step : Nat) (p : StatusPatch)
    (st : RunState) : RunState :=
  { statuses := fun s =>
      if s = step then { applyPatch (st.statuses step) p with timeElapsed := elapsedAt times st.tick }
      else st.statuses s
    events := st.events ++
      [{ applyPatch (st.statuses step) p with timeElapsed := elapsedAt times st.tick }]
    tick := st.tick + 1 }

/-- The `AGENTS` table: step ordinals in order. -/
def STEPS : List Nat := [1, 2, 3, 4, 5, 6, 7]

/-- Display names from the `AGENTS` table. -/
def agentName (step : Nat) : String :=
  if step = 1 then "CV Parser"
  else if step = 2 then "Professor Researcher"
  else if step = 3 then "Fit Analyzer"
  else if step = 4 then "Email Writer"
  else if step = 5 then "CV Recommender"
  else if step = 6 then "Motivation Letter Writer"
  else "Research Proposal Writer"

/-- Initial statuses: every slot `pending` before any stage executes. -/
def initStatuses : Nat → AgentStatusM := fun step =>
  { step := step, name := agentName step, status := .pending
    currentAction := "Waiting...", progress := 0, timeElapsed := 0
    output := none, error := none }

def initRunState : RunState := { statuses := initStatuses, events := [], tick := 1 }

/-- The observable behaviour of one opaque stage: the progress notices
it emits through its callback, then its outcome — an artifact, or the
message of a thrown error (`String(error)`).  The start and completion
action texts are carried here as well (in the source they are per-stage
constants). -/
structure StageOutcome where
  startMsg : String
  progressMsgs : List String
  result : Except String Nat
  doneMsg : String

/-- One stage block of `runPipeline`: set `running` and emit, forward
each progress notice, then on success set `complete` with the output
snapshot and emit once more; on failure the exception propagates (the
catch block handles the status). -/
def runStage (times : Nat → Nat) (step : Nat) (b : StageOutcome)
    (st : RunState) : RunState × Except String Nat :=
  let st1 := updateStatusM times step
    { status := some .running, currentAction := some b.startMsg } st
  let st2 := b.progressMsgs.foldl
    (fun s m => updateStatusM times step { currentAction := some m } s) st1
  match b.result with
  | .ok art =>
    (updateStatusM times step
      { status := some .complete, currentAction := some b.doneMsg
        progress := some 100, output := some (some art) } st2, .ok art)
  | .error e => (st2, .error e)

/-- The stage sequence of the `try` block: run the remaining steps in
order, accumulating each artifact into the shared context (represented
as the map from step ordinal to its produced artifact); stop at the
first failure. -/
def runStages (times : Nat → Nat) (beh : Nat → StageOutcome) :
    List Nat → RunState → (Nat → Option Nat) →
      ((Nat → Option Nat) × RunState × Option String)
  | [], st, ctxArt => (ctxArt, st, none)
  | step :: rest, st, ctxArt =>
    match runStage times step (beh step) st with
    | (st', .ok art) =>
      runStages times beh rest st' (fun s => if s = step then some art else ctxArt s)
    | (st', .error e) => (ctxArt, st', some e)

/-- The catch block: scan the agent table in step order, set the first
agent whose status is `running` to `error`, emit once, stop scanning. -/
def catchBlock (times : Nat → Nat) (errMsg : String) (st : RunState) : RunState :=
  match STEPS.find? (fun step => (st.statuses step).status == StageLife.running) with
  | some step =>
    updateStatusM times step
      { status := some .error, currentAction := some ("Error: " ++ errMsg)
        error := some (some errMsg) } st
  | none => st

/-- `GenerationResult` with artifacts abstracted; `userProfile` is
internal to the run context and is not part of the result. -/
structure GenerationResultM where
  success : Bool
  error : Option String
  email : Option Nat
  cvRecommendations : Option Nat
  motivationLetter : Option Nat
  researchProposal : Option Nat
  professorProfile : Option Nat
  fitAnalysis : Option Nat
deriving Repr, DecidableEq

/-- Assemble the returned result object from the accumulated context:
step 2 produces `professorProfile`, 3 `fitAnalysis`, 4 `email`,
5 `cvRecommendations`, 6 `motivationLetter`, 7 `researchProposal`
(step 1 produces the internal `userProfile`). -/
def mkResult (success : Bool) (err : Option String) (ctxArt : Nat → Option Nat) :
    GenerationResultM :=
  { success := success, error := err
    email := ctxArt 4, cvRecommendations := ctxArt 5
    motivationLetter := ctxArt 6, researchProposal := ctxArt 7
    professorProfile := ctxArt 2, fitAnalysis := ctxArt 3 }

/-- `runPipeline` of `orchestrator.ts`: run the stages in order; on
success return the full result; on a stage failure mark the failing
stage via the catch block and return a failure result that carries
whatever artifacts were accumulated. -/
def runPipelineM (times : Nat → Nat) (beh : Nat → StageOutcome) :
    GenerationResultM × RunState :=
  let out := runStages times beh STEPS initRunState (fun _ => none)
  match out.2.2 with
  | none => (mkResult true none out.1, out.2.1)
  | some e => (mkResult false (some e) out.1, catchBlock times e out.2.1)

/-! ## Invariants of the orchestrator run state -/

theorem updateStatusM_statuses_ne (times : Nat → Nat) (step : Nat) (p : StatusPatch)
    (st : RunState) (j : Nat) (hj : j ≠ step) :
    (updateStatusM times step p st).statuses j = st.statuses j := by
  unfold updateStatusM
  dsimp only
  rw [if_neg hj]

theorem updateStatusM_statuses_eq (times : Nat → Nat) (step : Nat) (p : StatusPatch)
    (st : RunState) :
    (updateStatusM times step p st).statuses step =
      { applyPatch (st.statuses step) p with timeElapsed := elapsedAt times st.tick } := by
  unfold updateStatusM
  dsimp only
  rw [if_pos rfl]

theorem updateStatusM_events (times : Nat → Nat) (step : Nat) (p : StatusPatch)
    (st : RunState) :
    (updateStatusM times step p st).events =
      st.events ++
        [{ applyPatch (st.statuses step) p with timeElapsed := elapsedAt times st.tick }] :=
  rfl

theorem elapsedAt_mono (times : Nat → Nat) (hmono : ∀ i j, i ≤ j → times i ≤ times j)
    {t t' : Nat} (h : t ≤ t') : elapsedAt times t ≤ elapsedAt times t' :=
  Nat.div_le_div_right (Nat.sub_le_sub_right (hmono t t' h) _)

/-- Invariant maintained along a pipeline run: status records carry
their own step ordinal; emitted events have non-decreasing step
ordinals bounded by the current frontier `b` and non-decreasing elapsed
times, each computed from the run-start sample and not exceeding the
elapsed time of the next tick. -/
structure StateOk (times : Nat → Nat) (st : RunState) (b : Nat) : Prop where
  stepField : ∀ j, (st.statuses j).step = j
  evStepsSorted : st.events.Pairwise (fun x y => x.step ≤ y.step)
  evStepsLe : ∀ ev ∈ st.events, ev.step ≤ b
  evElapsedSorted : st.events.Pairwise (fun x y => x.timeElapsed ≤ y.timeElapsed)
  evElapsedLe : ∀ ev ∈ st.events, ev.timeElapsed ≤ elapsedAt times st.tick
  evFromStart : ∀ ev ∈ st.events, ∃ t, ev.timeElapsed = elapsedAt times t

theorem StateOk.init (times : Nat → Nat) : StateOk times initRunState 0 :=
  ⟨fun _ => rfl, List.Pairwise.nil,
   fun ev h => absurd h (List.not_mem_nil ev), List.Pairwise.nil,
   fun ev h => absurd h (List.not_mem_nil ev),
   fun ev h => absurd h (List.not_mem_nil ev)⟩

theorem StateOk.update (times : Nat → Nat) (st : RunState) (b : Nat)
    (hok : StateOk times st b) (step : Nat) (p : StatusPatch)
    (hmono : ∀ i j, i ≤ j → times i ≤ times j) (hb : b ≤ step) :
    StateOk times (updateStatusM times step p st) step := by
  have hstep : (updateStatusM times step p st).statuses step =
      { applyPatch (st.statuses step) p with timeElapsed := elapsedAt times st.tick } :=
    updateStatusM_statuses_eq times step p st
  have hev := updateStatusM_events times step p st
  have hnewstep :
      ({ applyPatch (st.statuses step) p with
          timeElapsed := elapsedAt times st.tick } : AgentStatusM).step = step := by
    have : (applyPatch (st.statuses step) p).step = (st.statuses step).step := rfl
    rw [show ({ applyPatch (st.statuses step) p with
        timeElapsed := elapsedAt times st.tick } : AgentStatusM).step =
        (applyPatch (st.statuses step) p).step from rfl, this, hok.stepField step]
  constructor
  · intro j
    by_cases hj : j = step
    · subst hj
      rw [hstep]
      exact hnewstep
    · rw [updateStatusM_statuses_ne times step p st j hj]
      exact hok.stepField j
  · rw [hev, List.pairwise_append]
    refine ⟨hok.evStepsSorted, List.pairwise_singleton _ _, ?_⟩
    intro x hx y hy
    rw [List.mem_singleton] at hy
    subst hy
    rw [hnewstep]
    exact le_trans (hok.evStepsLe x hx) hb
  · intro ev hev'
    rw [hev, List.mem_append] at hev'
    rcases hev' with h | h
    · exact le_trans (hok.evStepsLe ev h) hb
    · rw [List.mem_singleton] at h
      subst h
      rw [hnewstep]
  · rw [hev, List.pairwise_append]
    refine ⟨hok.evElapsedSorted, List.pairwise_singleton _ _, ?_⟩
    intro x hx y hy
    rw [List.mem_singleton] at hy
    subst hy
    exact hok.evElapsedLe x hx
  · intro ev hev'
    rw [hev, List.mem_append] at hev'
    have htick : (updateStatusM times step p st).tick = st.tick + 1 := rfl
    rcases hev' with h | h
    · exact le_trans (hok.evElapsedLe ev h)
        (by rw [htick]; exact elapsedAt_mono times hmono (Nat.le_succ _))
    · rw [List.mem_singleton] at h
      subst h
      rw [htick]
      exact elapsedAt_mono times hmono (Nat.le_succ _)
  · intro ev hev'
    rw [hev, List.mem_append] at hev'
    rcases hev' with h | h
    · exact hok.evFromStart ev h
    · rw [List.mem_singleton] at h
      subst h
      exact ⟨st.tick, rfl⟩

theorem progressFold_ok (times : Nat → Nat) (step : Nat)
    (hmono : ∀ i j, i ≤ j → times i ≤ times j) :
    ∀ (msgs : List String) (st : RunState), StateOk times st step →
      StateOk times
        (msgs.foldl (fun s m => updateStatusM times step { currentAction := some m } s) st)
        step ∧
      (∀ j, j ≠ step →
        (msgs.foldl (fun s m => updateStatusM times step { currentAction := some m } s)
            st).statuses j = st.statuses j) ∧
      ((msgs.foldl (fun s m => updateStatusM times step { currentAction := some m } s)
          st).statuses step).status = (st.statuses step).status := by
  intro msgs
  induction msgs with
  | nil => exact fun st h => ⟨h, fun j _ => rfl, rfl⟩
  | cons m rest ih =>
    intro st h
    rw [List.foldl_cons]
    have h1 := StateOk.update times st step h step { currentAction := some m } hmono
      (le_refl step)
    obtain ⟨ih1, ih2, ih3⟩ := ih _ h1
    refine ⟨ih1, ?_, ?_⟩
    · intro j hj
      rw [ih2 j hj, updateStatusM_statuses_ne times step _ st j hj]
    · rw [ih3, updateStatusM_statuses_eq]
      rfl

theorem runStage_ok (times : Nat → Nat) (step : Nat) (bOut : StageOutcome)
    (st : RunState) (b : Nat) (hok : StateOk times st b)
    (hmono : ∀ i j, i ≤ j → times i ≤ times j) (hb : b ≤ step) :
    (runStage times step bOut st).2 = bOut.result ∧
    StateOk times (runStage times step bOut st).1 step ∧
    (∀ j, j ≠ step → (runStage times step bOut st).1.statuses j = st.statuses j) ∧
    ((runStage times step bOut st).1.statuses step).status =
      (match bOut.result with
       | .ok _ => StageLife.complete
       | .error _ => StageLife.running) := by
  unfold runStage
  have h1 := StateOk.update times st b hok step
    { status := some .running, currentAction := some bOut.startMsg } hmono hb
  have h1status :
      ((updateStatusM times step
          { status := some .running, currentAction := some bOut.startMsg } st).statuses
          step).status = StageLife.running := by
    rw [updateStatusM_statuses_eq]
    rfl
  obtain ⟨h2, h2frame, h2status⟩ := progressFold_ok times step hmono bOut.progressMsgs _ h1
  cases hres : bOut.result with
  | ok art =>
    dsimp only
    have h3 := StateOk.update times _ step h2 step
      { status := some .complete, currentAction := some bOut.doneMsg
        progress := some 100, output := some (some art) } hmono (le_refl step)
    refine ⟨rfl, h3, ?_, ?_⟩
    · intro j hj
      rw [updateStatusM_statuses_ne times step _ _ j hj, h2frame j hj,
        updateStatusM_statuses_ne times step _ st j hj]
    · rw [updateStatusM_statuses_eq]
      rfl
  | error e =>
    dsimp only
    refine ⟨rfl, h2, ?_, ?_⟩
    · intro j hj
      rw [h2frame j hj, updateStatusM_statuses_ne times step _ st j hj]
    · rw [h2status, h1status]

/-- The artifact produced by a stage outcome, if any. -/
def resultArt (r : Except String Nat) : Option Nat :=
  match r with
  | .ok a => some a
  | .error _ => none

theorem runStages_all_ok (times : Nat → Nat) (beh : Nat → StageOutcome)
    (hmono : ∀ i j, i ≤ j → times i ≤ times j) :
    ∀ (steps : List Nat) (st : RunState) (ctxArt : Nat → Option Nat) (b : Nat),
      StateOk times st b → steps.Pairwise (· < ·) → (∀ s ∈ steps, b < s) →
      (∀ s ∈ steps, ∃ a, (beh s).result = .ok a) →
      (runStages times beh steps st ctxArt).2.2 = none ∧
      (∃ b', b ≤ b' ∧ StateOk times (runStages times beh steps st ctxArt).2.1 b') ∧
      (∀ s, (runStages times beh steps st ctxArt).1 s =
        if s ∈ steps then resultArt (beh s).result else ctxArt s) ∧
      (∀ j ∈ steps,
        ((runStages times beh steps st ctxArt).2.1.statuses j).status = .complete) ∧
      (∀ j, j ∉ steps →
        (runStages times beh steps st ctxArt).2.1.statuses j = st.statuses j) := by
  intro steps
  induction steps with
  | nil =>
    intro st ctxArt b hok _ _ _
    refine ⟨rfl, ⟨b, le_refl b, hok⟩, ?_, ?_, fun j _ => rfl⟩
    · intro s
      rw [if_neg (List.not_mem_nil s)]
      rfl
    · intro j hj
      exact absurd hj (List.not_mem_nil j)
  | cons h rest ih =>
    intro st ctxArt b hok hsort hgt hbeh
    obtain ⟨a, ha⟩ := hbeh h (List.mem_cons_self h rest)
    obtain ⟨hres, hok', hframe, hstatus⟩ :=
      runStage_ok times h (beh h) st b hok hmono (le_of_lt (hgt h (List.mem_cons_self h rest)))
    rw [runStages]
    have hpair : runStage times h (beh h) st =
        ((runStage times h (beh h) st).1, Except.ok a) := by
      rw [← ha, ← hres]
    rw [hpair]
    dsimp only
    have hsort' := (List.pairwise_cons.mp hsort).2
    have hgt' : ∀ s ∈ rest, h < s := (List.pairwise_cons.mp hsort).1
    have hbeh' : ∀ s ∈ rest, ∃ x, (beh s).result = .ok x :=
      fun s hs => hbeh s (List.mem_cons_of_mem h hs)
    obtain ⟨c1, ⟨b', hb', c2⟩, c3, c4, c5⟩ :=
      ih (runStage times h (beh h) st).1
        (fun s => if s = h then some a else ctxArt s) h hok' hsort' hgt' hbeh'
    have hnotrest : h ∉ rest := fun hh => absurd (hgt' h hh) (lt_irrefl h)
    refine ⟨c1, ⟨b', le_trans (le_of_lt (hgt h (List.mem_cons_self h rest))) hb', c2⟩,
      ?_, ?_, ?_⟩
    · intro s
      rw [c3 s]
      by_cases hs : s ∈ rest
      · rw [if_pos hs, if_pos (List.mem_cons_of_mem h hs)]
      · rw [if_neg hs]
        by_cases hsh : s = h
        · subst hsh
          rw [if_pos rfl, if_pos (List.mem_cons_self s rest), ha]
          rfl
        · rw [if_neg hsh, if_neg (by
            intro hmem
            rcases List.mem_cons.mp hmem with h' | h'
            · exact hsh h'
            · exact hs h')]
    · intro j hj
      rcases List.mem_cons.mp hj with rfl | hj'
      · rw [c5 j hnotrest]
        rw [ha] at hstatus
        exact hstatus
      · exact c4 j hj'
    · intro j hj
      have hj1 : j ≠ h := fun hh => hj (hh ▸ List.mem_cons_self h rest)
      have hj2 : j ∉ rest := fun hh => hj (List.mem_cons_of_mem h hh)
      rw [c5 j hj2, hframe j hj1]

theorem runStages_fail (times : Nat → Nat) (beh : Nat → StageOutcome)
    (hmono : ∀ i j, i ≤ j → times i ≤ times j) :
    ∀ (l₁ : List Nat) (k : Nat) (l₂ : List Nat) (st : RunState)
      (ctxArt : Nat → Option Nat) (b : Nat) (e : String),
      StateOk times st b → (l₁ ++ k :: l₂).Pairwise (· < ·) →
      (∀ s ∈ l₁ ++ k :: l₂, b < s) →
      (∀ s ∈ l₁, ∃ a, (beh s).result = .ok a) → (beh k).result = .error e →
      (runStages times beh (l₁ ++ k :: l₂) st ctxArt).2.2 = some e ∧
      StateOk times (runStages times beh (l₁ ++ k :: l₂) st ctxArt).2.1 k ∧
      (∀ s, (runStages times beh (l₁ ++ k :: l₂) st ctxArt).1 s =
        if s ∈ l₁ then resultArt (beh s).result else ctxArt s) ∧
      (∀ j ∈ l₁,
        ((runStages times beh (l₁ ++ k :: l₂) st ctxArt).2.1.statuses j).status
          = .complete) ∧
      (((runStages times beh (l₁ ++ k :: l₂) st ctxArt).2.1.statuses k).status
        = .running) ∧
      (∀ j, j ∉ l₁ → j ≠ k →
        (runStages times beh (l₁ ++ k :: l₂) st ctxArt).2.1.statuses j = st.statuses j) := by
  intro l₁
  induction l₁ with
  | nil =>
    intro k l₂ st ctxArt b e hok hsort hgt hbeh hfail
    rw [List.nil_append] at hsort hgt ⊢
    obtain ⟨hres, hok', hframe, hstatus⟩ :=
      runStage_ok times k (beh k) st b hok hmono
        (le_of_lt (hgt k (List.mem_cons_self k l₂)))
    rw [runStages]
    have hpair : runStage times k (beh k) st =
        ((runStage times k (beh k) st).1, Except.error e) := by
      rw [← hfail, ← hres]
    rw [hpair]
    dsimp only
    rw [hfail] at hstatus
    refine ⟨rfl, hok', ?_, ?_, hstatus, ?_⟩
    · intro s
      rw [if_neg (List.not_mem_nil s)]
    · intro j hj
      exact absurd hj (List.not_mem_nil j)
    · intro j _ hjk
      exact hframe j hjk
  | cons h rest ih =>
    intro k l₂ st ctxArt b e hok hsort hgt hbeh hfail
    rw [List.cons_append] at hsort hgt ⊢
    obtain ⟨a, ha⟩ := hbeh h (List.mem_cons_self h rest)
    obtain ⟨hres, hok', hframe, hstatus⟩ :=
      runStage_ok times h (beh h) st b hok hmono
        (le_of_lt (hgt h (List.mem_cons_self h _)))
    rw [runStages]
    have hpair : runStage times h (beh h) st =
        ((runStage times h (beh h) st).1, Except.ok a) := by
      rw [← ha, ← hres]
    rw [hpair]
    dsimp only
    have hsort' := (List.pairwise_cons.mp hsort).2
    have hgtall : ∀ s ∈ rest ++ k :: l₂, h < s := (List.pairwise_cons.mp hsort).1
    have hbeh' : ∀ s ∈ rest, ∃ x, (beh s).result = .ok x :=
      fun s hs => hbeh s (List.mem_cons_of_mem h hs)
    obtain ⟨c1, c2, c3, c4, c5, c6⟩ :=
      ih k l₂ (runStage times h (beh h) st).1
        (fun s => if s = h then some a else ctxArt s) h e hok' hsort' hgtall hbeh' hfail
    have hnotrest : h ∉ rest :=
      fun hh => absurd (hgtall h (List.mem_append_left _ hh)) (lt_irrefl h)
    have hnek : h ≠ k :=
      fun hh => absurd (hgtall k (List.mem_append_right _ (List.mem_cons_self k l₂)))
        (by rw [hh]; exact lt_irrefl k)
    refine ⟨c1, c2, ?_, ?_, c5, ?_⟩
    · intro s
      rw [c3 s]
      by_cases hs : s ∈ rest
      · rw [if_pos hs, if_pos (List.mem_cons_of_mem h hs)]
      · rw [if_neg hs]
        by_cases hsh : s = h
        · subst hsh
          rw [if_pos rfl, if_pos (List.mem_cons_self s rest), ha]
          rfl
        · rw [if_neg hsh, if_neg (by
            intro hmem
            rcases List.mem_cons.mp hmem with h' | h'
            · exact hsh h'
            · exact hs h')]
    · intro j hj
      rcases List.mem_cons.mp hj with rfl | hj'
      · rw [c6 j hnotrest (by
          intro hh
          exact absurd (hgtall k (List.mem_append_right _ (List.mem_cons_self k l₂)))
            (by rw [← hh]; exact lt_irrefl j))]
        rw [ha] at hstatus
        exact hstatus
      · exact c4 j hj'
    · intro j hj hjk
      have hj1 : j ≠ h := fun hh => hj (hh ▸ List.mem_cons_self h rest)
      have hj2 : j ∉ rest := fun hh => hj (List.mem_cons_of_mem h hh)
      rw [c6 j hj2 hjk, hframe j hj1]

theorem pairwiseConj {α : Type} {R S : α → α → Prop} :
    ∀ {l : List α}, l.Pairwise R → l.Pairwise S →
      l.Pairwise (fun a b => R a b ∧ S a b) := by
  intro l
  induction l with
  | nil => intro _ _; exact List.Pairwise.nil
  | cons x xs ih =>
    intro hR hS
    rw [List.pairwise_cons] at hR hS ⊢
    exact ⟨fun y hy => ⟨hR.1 y hy, hS.1 y hy⟩, ih hR.2 hS.2⟩

theorem find?_unique {p : Nat → Bool} {l : List Nat} {k : Nat}
    (hk : k ∈ l) (hpk : p k = true) (hothers : ∀ j ∈ l, j ≠ k → p j = false) :
    l.find? p = some k := by
  induction l with
  | nil => exact absurd hk (List.not_mem_nil k)
  | cons x xs ih =>
    by_cases hx : x = k
    · subst hx
      rw [List.find?_cons_of_pos _ hpk]
    · have hpx : p x = false := hothers x (List.mem_cons_self x xs) hx
      rw [List.find?_cons_of_neg _ (by simp [hpx])]
      exact ih ((List.mem_cons.mp hk).resolve_left (fun h => hx h.symm))
        (fun j hj hjk => hothers j (List.mem_cons_of_mem x hj) hjk)

theorem mem_left_of_sorted_split {l₁ l₂ : List Nat} {k : Nat}
    (hsort : (l₁ ++ k :: l₂).Pairwise (· < ·)) (s : Nat) :
    s ∈ l₁ ↔ s ∈ l₁ ++ k :: l₂ ∧ s < k := by
  rw [List.pairwise_append] at hsort
  obtain ⟨h1, h2, h3⟩ := hsort
  constructor
  · intro hs
    exact ⟨List.mem_append_left _ hs, h3 s hs k (List.mem_cons_self _ _)⟩
  · rintro ⟨hs, hlt⟩
    rcases List.mem_append.mp hs with h | h
    · exact h
    · rcases List.mem_cons.mp h with rfl | h
      · omega
      · have := (List.pairwise_cons.mp h2).1 s h
        omega

theorem exists_first_fail (beh : Nat → StageOutcome) :
    ∀ (steps : List Nat),
      (∀ s ∈ steps, ∃ a, (beh s).result = .ok a) ∨
      ∃ l₁ k l₂ e, steps = l₁ ++ k :: l₂ ∧
        (∀ s ∈ l₁, ∃ a, (beh s).result = .ok a) ∧ (beh k).result = .error e := by
  intro steps
  induction steps with
  | nil => exact Or.inl (fun s hs => absurd hs (List.not_mem_nil s))
  | cons h rest ih =>
    cases hres : (beh h).result with
    | error e =>
      exact Or.inr ⟨[], h, rest, e, rfl, fun s hs => absurd hs (List.not_mem_nil s), hres⟩
    | ok a =>
      rcases ih with hall | ⟨l₁, k, l₂, e, heq, hok, hf⟩
      · refine Or.inl (fun s hs => ?_)
        rcases List.mem_cons.mp hs with rfl | hs
        · exact ⟨a, hres⟩
        · exact hall s hs
      · refine Or.inr ⟨h :: l₁, k, l₂, e, by rw [heq, List.cons_append], ?_, hf⟩
        intro s hs
        rcases List.mem_cons.mp hs with rfl | hs
        · exact ⟨a, hres⟩
        · exact hok s hs

/-- Shape of a pipeline run whose first failing stage is `k`: the
result carries the artifacts accumulated before `k`, and the final
state is the pre-catch state (stages before `k` complete, `k` running,
everything else untouched) with the single catch-block update applied. -/
theorem pipeline_fail_shape (times : Nat → Nat) (beh : Nat → StageOutcome)
    (hmono : ∀ i j, i ≤ j → times i ≤ times j)
    (l₁ l₂ : List Nat) (k : Nat) (e : String)
    (hsplit : STEPS = l₁ ++ k :: l₂)
    (hok : ∀ s ∈ l₁, ∃ a, (beh s).result = .ok a)
    (hfail : (beh k).result = .error e) :
    ∃ (ctxArt : Nat → Option Nat) (st' : RunState),
      runPipelineM times beh =
        (mkResult false (some e) ctxArt,
         updateStatusM times k
           { status := some .error, currentAction := some ("Error: " ++ e)
             error := some (some e) } st') ∧
      (∀ s, ctxArt s = if s ∈ l₁ then resultArt (beh s).result else none) ∧
      StateOk times st' k ∧
      (∀ j ∈ l₁, (st'.statuses j).status = .complete) ∧
      ((st'.statuses k).status = .running) ∧
      (∀ j, j ∉ l₁ → j ≠ k → st'.statuses j = initRunState.statuses j) ∧
      (∀ s, s ∈ l₁ ↔ (s ∈ STEPS ∧ s < k)) := by
  have hsort : STEPS.Pairwise (· < ·) := by decide
  have hgt : ∀ s ∈ STEPS, 0 < s := by decide
  rw [hsplit] at hsort hgt
  obtain ⟨c1, c2, c3, c4, c5, c6⟩ :=
    runStages_fail times beh hmono l₁ k l₂ initRunState (fun _ => none) 0 e
      (StateOk.init times) hsort hgt hok hfail
  rw [← hsplit] at c1 c2 c3 c4 c5 c6
  have hfind : STEPS.find? (fun s0 =>
      ((runStages times beh STEPS initRunState (fun _ => none)).2.1.statuses
        s0).status == StageLife.running) = some k := by
    apply find?_unique
    · rw [hsplit]
      exact List.mem_append_right _ (List.mem_cons_self k l₂)
    · rw [c5]
      rfl
    · intro j hj hjk
      by_cases hjl : j ∈ l₁
      · rw [c4 j hjl]
        rfl
      · rw [c6 j hjl hjk]
        rfl
  refine ⟨(runStages times beh STEPS initRunState (fun _ => none)).1,
    (runStages times beh STEPS initRunState (fun _ => none)).2.1,
    ?_, ?_, c2, c4, c5, c6, ?_⟩
  · simp only [runPipelineM]
    rw [c1]
    dsimp only
    unfold catchBlock
    rw [hfind]
  · intro s
    rw [c3 s]
  · intro s
    rw [hsplit]
    exact mem_left_of_sorted_split hsort s

/-- C5: for every run in which some stage fails, `runPipeline` returns a
result with `success = false` that contains exactly the result-visible
artifacts of the stages that completed strictly before the failing
stage `k` (no artifact of the failing or any later stage is present),
and no stage after the failing one is invoked: every emitted event
belongs to a step at most `k` and every later stage ends `pending`.
(`userProfile`, produced by stage 1, is internal to the run context and
is never a field of the returned result, on success or failure.) -/
theorem failure_returns_earlier_artifacts_only
    (times : Nat → Nat) (beh : Nat → StageOutcome)
    (hmono : ∀ i j, i ≤ j → times i ≤ times j)
    (l₁ l₂ : List Nat) (k : Nat) (e : String)
    (hsplit : STEPS = l₁ ++ k :: l₂)
    (hok : ∀ s ∈ l₁, ∃ a, (beh s).result = .ok a)
    (hfail : (beh k).result = .error e) :
    (runPipelineM times beh).1.success = false ∧
    (runPipelineM times beh).1.error = some e ∧
    ((runPipelineM times beh).1.professorProfile.isSome ↔ 2 < k) ∧
    ((runPipelineM times beh).1.fitAnalysis.isSome ↔ 3 < k) ∧
    ((runPipelineM times beh).1.email.isSome ↔ 4 < k) ∧
    ((runPipelineM times beh).1.cvRecommendations.isSome ↔ 5 < k) ∧
    ((runPipelineM times beh).1.motivationLetter.isSome ↔ 6 < k) ∧
    ((runPipelineM times beh).1.researchProposal.isSome ↔ 7 < k) ∧
    (∀ ev ∈ (runPipelineM times beh).2.events, ev.step ≤ k) ∧
    (∀ j, k < j → ((runPipelineM times beh).2.statuses j).status = .pending) := by
  obtain ⟨ctxArt, st', hred, hctx, hokst, hcomp, hrun, hfr, hmem⟩ :=
    pipeline_fail_shape times beh hmono l₁ l₂ k e hsplit hok hfail
  have hart : ∀ s, s ∈ STEPS → ((ctxArt s).isSome ↔ s < k) := by
    intro s hs
    rw [hctx s]
    by_cases hsl : s ∈ l₁
    · rw [if_pos hsl]
      obtain ⟨a, ha⟩ := hok s hsl
      rw [ha]
      exact ⟨fun _ => ((hmem s).mp hsl).2, fun _ => rfl⟩
    · rw [if_neg hsl]
      constructor
      · intro h
        exact absurd h (by simp)
      · intro hlt
        exact absurd ((hmem s).mpr ⟨hs, hlt⟩) hsl
  have hcatchok : StateOk times
      (updateStatusM times k
        { status := some .error, currentAction := some ("Error: " ++ e)
          error := some (some e) } st') k :=
    StateOk.update times st' k hokst k _ hmono (le_refl k)
  rw [hred]
  refine ⟨rfl, rfl, hart 2 (by decide), hart 3 (by decide), hart 4 (by decide),
    hart 5 (by decide), hart 6 (by decide), hart 7 (by decide), ?_, ?_⟩
  · exact hcatchok.evStepsLe
  · intro j hj
    have hj1 : j ∉ l₁ := fun hh => absurd ((hmem j).mp hh).2 (by omega)
    have hj2 : j ≠ k := by omega
    rw [updateStatusM_statuses_ne times k _ st' j hj2, hfr j hj1 hj2]
    rfl

def wTimes : Nat → Nat := fun t => 1000 * t

def wBehFail3 : Nat → StageOutcome := fun s =>
  if s = 3 then
    { startMsg := "start", progressMsgs := ["working"], result := .error "boom"
      doneMsg := "done" }
  else
    { startMsg := "start", progressMsgs := [], result := .ok s, doneMsg := "done" }

/-- Witness for C5 with stage 3 (Fit Analyzer) failing: stages 1 and 2
completed, so the professor profile is present, the fit analysis and
everything later are absent, and stage 5 is still pending. -/
theorem failure_returns_earlier_artifacts_only_witness :
    (runPipelineM wTimes wBehFail3).1.success = false ∧
    (runPipelineM wTimes wBehFail3).1.error = some "boom" ∧
    ((runPipelineM wTimes wBehFail3).1.professorProfile.isSome ↔ 2 < 3) ∧
    ((runPipelineM wTimes wBehFail3).1.fitAnalysis.isSome ↔ 3 < 3) ∧
    ((runPipelineM wTimes wBehFail3).1.email.isSome ↔ 4 < 3) ∧
    ((runPipelineM wTimes wBehFail3).2.statuses 5).status = .pending := by
  obtain ⟨h1, h2, h3, h4, h5, _, _, _, _, h10⟩ :=
    failure_returns_earlier_artifacts_only wTimes wBehFail3
      (fun _ _ h => Nat.mul_le_mul_left 1000 h)
      [1, 2] [4, 5, 6, 7] 3 "boom" rfl
      (by
        intro s hs
        rcases List.mem_cons.mp hs with rfl | hs
        · exact ⟨1, rfl⟩
        rcases List.mem_cons.mp hs with rfl | hs
        · exact ⟨2, rfl⟩
        · exact absurd hs (List.not_mem_nil s))
      rfl
  exact ⟨h1, h2, h3, h4, h5, h10 5 (by decide)⟩

/-- C7: in every run, the sequence of emitted status events has
non-decreasing step ordinals and non-decreasing elapsed times (for any
monotone clock), and every emitted elapsed time is computed from the
single run-start clock sample `times 0` captured once at the beginning
of the run. -/
theorem status_stream_monotone (times : Nat → Nat) (beh : Nat → StageOutcome)
    (hmono : ∀ i j, i ≤ j → times i ≤ times j) :
    ((runPipelineM times beh).2.events).Pairwise
      (fun x y => x.step ≤ y.step ∧ x.timeElapsed ≤ y.timeElapsed) ∧
    ∀ ev ∈ (runPipelineM times beh).2.events, ∃ t, ev.timeElapsed = elapsedAt times t := by
  rcases exists_first_fail beh STEPS with hall | ⟨l₁, k, l₂, e, hsplit, hok, hfail⟩
  · obtain ⟨c1, ⟨b', _, c2⟩, _⟩ :=
      runStages_all_ok times beh hmono STEPS initRunState (fun _ => none) 0
        (StateOk.init times) (by decide) (by decide) hall
    have hred : runPipelineM times beh =
        (mkResult true none (runStages times beh STEPS initRunState (fun _ => none)).1,
         (runStages times beh STEPS initRunState (fun _ => none)).2.1) := by
      simp only [runPipelineM]
      rw [c1]
    rw [hred]
    exact ⟨pairwiseConj c2.evStepsSorted c2.evElapsedSorted, c2.evFromStart⟩
  · obtain ⟨ctxArt, st', hred, _, hokst, _, _, _, _⟩ :=
      pipeline_fail_shape times beh hmono l₁ l₂ k e hsplit hok hfail
    have hcatchok : StateOk times
        (updateStatusM times k
          { status := some .error, currentAction := some ("Error: " ++ e)
            error := some (some e) } st') k :=
      StateOk.update times st' k hokst k _ hmono (le_refl k)
    rw [hred]
    exact ⟨pairwiseConj hcatchok.evStepsSorted hcatchok.evElapsedSorted,
      hcatchok.evFromStart⟩

/-- Witness for C7 on a fully successful run with a linear clock. -/
theorem status_stream_monotone_witness :
    ((runPipelineM wTimes (fun s =>
        { startMsg := "start", progressMsgs := [], result := .ok s
          doneMsg := "done" })).2.events).Pairwise
      (fun x y => x.step ≤ y.step ∧ x.timeElapsed ≤ y.timeElapsed) ∧
    ∀ ev ∈ (runPipelineM wTimes (fun s =>
        { startMsg := "start", progressMsgs := [], result := .ok s
          doneMsg := "done" })).2.events,
      ∃ t, ev.timeElapsed = elapsedAt wTimes t :=
  status_stream_monotone wTimes
    (fun s => { startMsg := "start", progressMsgs := [], result := .ok s
                doneMsg := "done" })
    (fun _ _ h => Nat.mul_le_mul_left 1000 h)

/-- C9: when the pipeline catches a stage error, exactly one agent
status changes: the first agent in step order whose status is `running`
is set to `error` (the catch block changes no other slot), so in the
final state of a run failing at stage `k` the earlier stages remain
`complete` and the later ones remain `pending`. -/
theorem catch_flips_only_first_running
    (times : Nat → Nat) (beh : Nat → StageOutcome)
    (hmono : ∀ i j, i ≤ j → times i ≤ times j)
    (l₁ l₂ : List Nat) (k : Nat) (e : String)
    (hsplit : STEPS = l₁ ++ k :: l₂)
    (hok : ∀ s ∈ l₁, ∃ a, (beh s).result = .ok a)
    (hfail : (beh k).result = .error e) :
    (∀ (st : RunState) (msg : String) (r : Nat),
      STEPS.find? (fun s => (st.statuses s).status == StageLife.running) = some r →
      (∀ j, j ≠ r → (catchBlock times msg st).statuses j = st.statuses j) ∧
      ((catchBlock times msg st).statuses r).status = .error) ∧
    (∀ j, j < k → j ∈ STEPS →
      ((runPipelineM times beh).2.statuses j).status = .complete) ∧
    ((runPipelineM times beh).2.statuses k).status = .error ∧
    (∀ j, k < j → ((runPipelineM times beh).2.statuses j).status = .pending) := by
  obtain ⟨ctxArt, st', hred, _, _, hcomp, _, hfr, hmem⟩ :=
    pipeline_fail_shape times beh hmono l₁ l₂ k e hsplit hok hfail
  refine ⟨?_, ?_, ?_, ?_⟩
  · intro st msg r hfind
    unfold catchBlock
    rw [hfind]
    constructor
    · intro j hj
      exact updateStatusM_statuses_ne times r _ st j hj
    · rw [updateStatusM_statuses_eq]
      rfl
  · intro j hj hjs
    have hjl : j ∈ l₁ := (hmem j).mpr ⟨hjs, hj⟩
    rw [hred]
    dsimp only
    rw [updateStatusM_statuses_ne times k _ st' j (by omega)]
    exact hcomp j hjl
  · rw [hred]
    dsimp only
    rw [updateStatusM_statuses_eq]
    rfl
  · intro j hj
    have hj1 : j ∉ l₁ := fun hh => absurd ((hmem j).mp hh).2 (by omega)
    rw [hred]
    dsimp only
    rw [updateStatusM_statuses_ne times k _ st' j (by omega), hfr j hj1 (by omega)]
    rfl

/-- Witness for C9 with stage 3 failing: stage 2 stays complete, stage 3
is flipped to error, stage 6 stays pending. -/
theorem catch_flips_only_first_running_witness :
    ((runPipelineM wTimes wBehFail3).2.statuses 2).status = .complete ∧
    ((runPipelineM wTimes wBehFail3).2.statuses 3).status = .error ∧
    ((runPipelineM wTimes wBehFail3).2.statuses 6).status = .pending := by
  obtain ⟨_, h2, h3, h4⟩ :=
    catch_flips_only_first_running wTimes wBehFail3
      (fun _ _ h => Nat.mul_le_mul_left 1000 h)
      [1, 2] [4, 5, 6, 7] 3 "boom" rfl
      (by
        intro s hs
        rcases List.mem_cons.mp hs with rfl | hs
        · exact ⟨1, rfl⟩
        rcases List.mem_cons.mp hs with rfl | hs
        · exact ⟨2, rfl⟩
        · exact absurd hs (List.not_mem_nil s))
      rfl
  exact ⟨h2 2 (by decide) (by decide), h3, h4 6 (by decide)⟩

end AutoPhd
